import Mathlib

/-!
Shallow embedding of `leaked.h` (makestatic/leaked.h), a memory-leak /
invalid-free tracker for C.  The global manager `Mgr` (hash table with
chaining) and all its operations are translated directly from the source.
`size_t` is modelled as `Nat` with explicit reduction `% SZ` (`SZ = 2^64`)
wherever the C code performs `size_t` arithmetic that can wrap;
`unsigned int` casts reduce `% U32M`.  Heap-allocation outcomes that the C
code branches on (the `malloc` of a `Blk` node, the `calloc` of a bucket
array during rehash, the result of the wrapped user allocation) are passed
in as explicit oracle parameters.  Output to `stderr` is modelled as lists
of `Diag` / `OutLine` events returned alongside the new state.
-/

/-- Modulus of `size_t` / `uintptr_t` (64-bit platform). -/
def SZ : Nat := 2 ^ 64

/-- Modulus of `unsigned int`. -/
def U32M : Nat := 2 ^ 32

/-- Constant `LEAKED_INITIAL_CAP` from the source. -/
def LEAKED_INITIAL_CAP : Nat := 1024

/-- Record type `struct Blk`: one record per tracked live allocation.  The `next`
pointer of the C struct is represented by the position in a `List Blk`
chain (head of the list = head of the chain). -/
structure Blk where
  ptr : Nat
  sz : Nat
  file : String
  line : Int
deriving DecidableEq, Repr

/-- The global manager `Mgr`: bucket array (`none` models a NULL table
pointer), capacity, live count.  The mutex of the thread-safe build is not
modelled (all claims are about the sequential semantics under the lock). -/
structure Mgr where
  table : Option (List (List Blk))
  capacity : Nat
  alive : Nat
deriving DecidableEq, Repr

/-- The initial global state `{ NULL, 0, 0 }`. -/
def initMgr : Mgr := { table := none, capacity := 0, alive := 0 }

/-- Function `_hash_ptr`: `if (!cap) return 0; v = (v >> 4) ^ (v << 5);
return (unsigned int)(v % cap);` with `v : uintptr_t`. -/
def hash_ptr (p cap : Nat) : Nat :=
  if cap = 0 then 0
  else
    let v := p % SZ
    ((Nat.xor (v / 16) ((v * 32) % SZ)) % cap) % U32M

/-- All records currently reachable from the table, bucket 0 first, each
chain from its head. -/
def allBlks (m : Mgr) : List Blk :=
  match m.table with
  | none => []
  | some t => t.flatten

/-- The bucket array, `[]` when the table pointer is NULL. -/
def tableOf (m : Mgr) : List (List Blk) := m.table.getD []

/-- Whether some reachable record has address `p`. -/
def containsPtr (m : Mgr) (p : Nat) : Bool :=
  (allBlks m).any (fun b => b.ptr == p)

/-- Function `_ensure_table_ext`: lazily create the bucket array at the fixed
initial capacity.  The `calloc` of the array is modelled as succeeding
(on its failure path the C code would dereference NULL in `_add_blk`,
which is outside the defined behaviour any claim is about). -/
def ensure_table_ext (m : Mgr) : Mgr :=
  match m.table with
  | some _ => m
  | none =>
      { m with capacity := LEAKED_INITIAL_CAP
               table := some (List.replicate LEAKED_INITIAL_CAP ([] : List Blk)) }

/-- One step of `_rehash`'s inner loop: push record `b` onto the head of
its bucket `_hash_ptr(b->ptr, new_cap)` in the new table. -/
def rehashInsert (cap : Nat) (nt : List (List Blk)) (b : Blk) : List (List Blk) :=
  nt.set (hash_ptr b.ptr cap) (b :: nt.getD (hash_ptr b.ptr cap) [])

/-- Function `_rehash`: no-op when the table is NULL, the new capacity is 0, or the
`calloc` of the new bucket array fails (`allocOk = false`); otherwise walk
every old bucket in order, every chain head-to-tail, pushing each record
onto its new bucket, then install the new array and capacity. -/
def rehash (m : Mgr) (new_cap : Nat) (allocOk : Bool) : Mgr :=
  match m.table with
  | none => m
  | some t =>
    if new_cap = 0 then m
    else if allocOk = false then m
    else
      { m with
        table := some (t.foldl (fun acc chain => chain.foldl (rehashInsert new_cap) acc)
                        (List.replicate new_cap ([] : List Blk)))
        capacity := new_cap }

/-- Function `_maybe_resize`: grow to double capacity when
`alive > (capacity * 3) / 4` (all in `size_t` arithmetic). -/
def maybe_resize (m : Mgr) (allocOk : Bool) : Mgr :=
  match m.table with
  | none => m
  | some _ =>
    if m.alive > ((m.capacity * 3) % SZ) / 4 then
      rehash m ((m.capacity * 2) % SZ) allocOk
    else m

/-- Function `_add_blk`: ignore NULL, ensure the table, maybe resize, then (when
the `malloc` of the `Blk` node succeeds, `blkOk = true`) push a fresh
record onto the head of bucket `_hash_ptr(p, capacity)` and bump `alive`. -/
def add_blk (m : Mgr) (p sz : Nat) (f : String) (l : Int) (blkOk rehashOk : Bool) : Mgr :=
  if p = 0 then m
  else
    let m1 := maybe_resize (ensure_table_ext m) rehashOk
    match m1.table with
    | none => m1
    | some t =>
      if blkOk then
        let idx := hash_ptr p m1.capacity
        { m1 with
          table := some (t.set idx (Blk.mk p sz f l :: t.getD idx []))
          alive := (m1.alive + 1) % SZ }
      else m1

/-- A diagnostic line on `stderr`. -/
inductive Diag where
  | invalidFree (p : Nat) (f : String) (l : Int)
deriving DecidableEq, Repr

/-- Wrapping `size_t` decrement (`mgr.alive--`), wrapping at zero. -/
def sub1 (n : Nat) : Nat := if n = 0 then SZ - 1 else n - 1

/-- Unlink the first record with address `p` from a chain, as
`_del_blk`'s `Blk**` walk does; second component is the `ok` flag. -/
def removeFirst (p : Nat) : List Blk → List Blk × Bool
  | [] => ([], false)
  | b :: rest =>
    if b.ptr = p then (rest, true)
    else
      let r := removeFirst p rest
      (b :: r.1, r.2)

/-- The locked region of `_del_blk`: search bucket `_hash_ptr(p, capacity)`
for the first record with address `p`, unlink it and decrement `alive`;
second component is the `ok` flag. -/
def del_step (m : Mgr) (p : Nat) : Mgr × Bool :=
  match m.table with
  | none => (m, false)
  | some t =>
    let idx := hash_ptr p m.capacity
    let r := removeFirst p (t.getD idx [])
    if r.2 then
      ({ m with table := some (t.set idx r.1), alive := sub1 m.alive }, true)
    else (m, false)

/-- Function `_del_blk`: returns the new state, the `ok` result, and the emitted
diagnostics (`invalid free` exactly when `ok = 0` and `p` non-null). -/
def del_blk (m : Mgr) (p : Nat) (f : String) (l : Int) : Mgr × Bool × List Diag :=
  if p = 0 then (m, false, [])
  else
    if (del_step m p).2 then ((del_step m p).1, true, [])
    else ((del_step m p).1, false, [Diag.invalidFree p f l])

/-- Function `_xmalloc`: `res` is the oracle for the underlying `malloc` result
(`0` = NULL).  Returns the new state and the returned pointer. -/
def xmalloc (m : Mgr) (n : Nat) (f : String) (l : Int) (res : Nat)
    (blkOk rehashOk : Bool) : Mgr × Nat :=
  if res = 0 then (m, 0)
  else (add_blk m res n f l blkOk rehashOk, res)

/-- Function `_xcalloc`: overflow guard `if (nm && s > ((size_t)-1) / nm) return
NULL;` then delegate.  Third component records whether the underlying
`calloc` was invoked at all. -/
def xcalloc (m : Mgr) (nm s : Nat) (f : String) (l : Int) (res : Nat)
    (blkOk rehashOk : Bool) : Mgr × Nat × Bool :=
  if nm ≠ 0 ∧ s > (SZ - 1) / nm then (m, 0, false)
  else if res = 0 then (m, 0, true)
  else (add_blk m res ((nm * s) % SZ) f l blkOk rehashOk, res, true)

/-- Function `_xrealloc`: `res` is the oracle for the underlying `realloc` result.
On success, `_del_blk(old)` runs only when `old` is non-null and differs
from the result; then `_add_blk(res, n)` runs unconditionally. -/
def xrealloc (m : Mgr) (old n : Nat) (f : String) (l : Int) (res : Nat)
    (blkOk rehashOk : Bool) : Mgr × Nat × List Diag :=
  if res = 0 then (m, 0, [])
  else
    let r1 : Mgr × List Diag :=
      if old ≠ 0 ∧ old ≠ res then
        let d := del_blk m old f l
        (d.1, d.2.2)
      else (m, [])
    (add_blk r1.1 res n f l blkOk rehashOk, res, r1.2)

/-- Function `_xfree`: `if (p && _del_blk(p, f, l)) free(p);`.  Second component is
whether the real `free(p)` was invoked. -/
def xfree (m : Mgr) (p : Nat) (f : String) (l : Int) : Mgr × Bool × List Diag :=
  if p = 0 then (m, false, [])
  else
    let r := del_blk m p f l
    (r.1, r.2.1, r.2.2)

/-- A report line on `stderr` from `show_leaks`. -/
inductive OutLine where
  | leak (sz ptr : Nat) (f : String) (l : Int)
  | total (count : Nat) (bytes : Nat)
deriving DecidableEq, Repr

/-- Function `show_leaks`: returns early (printing nothing, state untouched) when
the table is NULL or `alive == 0`; otherwise detaches the table, prints
one leak line per record (buckets in order, chains head-to-tail) and a
total line when at least one record was printed, leaving the empty state. -/
def show_leaks (m : Mgr) : Mgr × List OutLine :=
  match m.table with
  | none => (m, [])
  | some t =>
    if m.alive = 0 then (m, [])
    else
      let blks := t.flatten
      let lines := blks.map (fun b => OutLine.leak b.sz b.ptr b.file b.line)
      let cnt := blks.length
      let bytes := blks.foldl (fun acc b => (acc + b.sz) % SZ) 0
      (initMgr, if cnt > 0 then lines ++ [OutLine.total cnt bytes] else lines)

/-- Every record reachable from bucket array `nt` sits in the bucket its
address hashes to (at capacity `cap`). -/
def bucketsOk (cap : Nat) (nt : List (List Blk)) : Prop :=
  ∀ i : Nat, ∀ b ∈ nt.getD i [], hash_ptr b.ptr cap = i

/-- State after one successful tracked allocation of 16 bytes at address
4096. -/
def mW1 : Mgr := (xmalloc initMgr 16 "a.c" 7 4096 true true).1

/-- State after `realloc` of that allocation to 32 bytes returned the same
address 4096 (in-place resize). -/
def c1_state : Mgr := (xrealloc mW1 4096 32 "a.c" 8 4096 true true).1

/-- State after one successful tracked allocation of 8 bytes at address 64. -/
def mW2 : Mgr := (xmalloc initMgr 8 "w.c" 9 64 true true).1

/-- State with the table created and no records. -/
def mEmptyT : Mgr := ensure_table_ext initMgr

/-- State after one successful tracked allocation of 128 bytes at address
555. -/
def mW4 : Mgr := (xmalloc initMgr 128 "w.c" 4 555 true true).1

/-- State after two successful tracked allocations (addresses 320, 480). -/
def mW6 : Mgr :=
  (xmalloc (xmalloc initMgr 8 "w.c" 21 320 true true).1 16 "w.c" 22 480 true true).1

/-- Bucket array holding 768 one-byte records at addresses 1..768, each in
the bucket its address hashes to at the initial capacity — exactly the
array 768 tracked allocations of those addresses build. -/
def tbl768 : List (List Blk) :=
  (List.range 768).foldl
    (fun t i => rehashInsert LEAKED_INITIAL_CAP t (Blk.mk (i + 1) 1 "c7.c" 1))
    (List.replicate LEAKED_INITIAL_CAP ([] : List Blk))

/-- Registry holding 768 live records at the initial capacity 1024: load
factor exactly 3/4. -/
def m768 : Mgr := { table := some tbl768, capacity := 1024, alive := 768 }

set_option maxRecDepth 200000
set_option maxHeartbeats 2000000

/-! ## Helper lemmas -/

/-- A successful `removeFirst` means some record in the chain has the
searched address. -/
theorem removeFirst_found {p : Nat} :
    ∀ {c : List Blk}, (removeFirst p c).2 = true → ∃ b ∈ c, b.ptr = p := by
  intro c
  induction c with
  | nil => simp [removeFirst]
  | cons b rest ih =>
    by_cases h : b.ptr = p
    · intro _
      exact ⟨b, List.mem_cons_self b rest, h⟩
    · simp only [removeFirst, if_neg h]
      intro h2
      obtain ⟨x, hx, hxp⟩ := ih h2
      exact ⟨x, List.mem_cons_of_mem _ hx, hxp⟩

/-- Membership in some bucket gives membership in the flattened table. -/
theorem mem_getD_mem_flatten {α} :
    ∀ (t : List (List α)) (i : Nat) (x : α), x ∈ t.getD i [] → x ∈ t.flatten := by
  intro t
  induction t with
  | nil => intro i x hx; simp [List.getD] at hx
  | cons c rest ih =>
    intro i x hx
    cases i with
    | zero =>
      simp only [List.getD_cons_zero] at hx
      exact List.mem_append_left _ hx
    | succ j =>
      simp only [List.getD_cons_succ] at hx
      exact List.mem_append_right _ (ih j x hx)

/-- A successful `del_step` implies the registry held a record for `p`. -/
theorem del_step_ok_contains (m : Mgr) (p : Nat)
    (h : (del_step m p).2 = true) : containsPtr m p = true := by
  unfold del_step at h
  cases hm : m.table with
  | none => simp [hm] at h
  | some t =>
    rw [hm] at h
    dsimp only at h
    by_cases hr : (removeFirst p (t.getD (hash_ptr p m.capacity) [])).2 = true
    · obtain ⟨b, hb, hbp⟩ := removeFirst_found hr
      have hbf : b ∈ t.flatten := mem_getD_mem_flatten t _ b hb
      unfold containsPtr allBlks
      rw [hm, List.any_eq_true]
      exact ⟨b, hbf, by simp [hbp]⟩
    · rw [if_neg hr] at h
      simp at h

/-- A successful `_del_blk` implies the registry held a record for `p`. -/
theorem del_blk_ok_contains (m : Mgr) (p : Nat) (f : String) (l : Int)
    (h : (del_blk m p f l).2.1 = true) : containsPtr m p = true := by
  by_cases hp : p = 0
  · simp [del_blk, hp] at h
  · by_cases hs : (del_step m p).2 = true
    · exact del_step_ok_contains m p hs
    · simp [del_blk, hp, hs] at h

/-- The diagnostics of `_del_blk` on a non-null pointer: empty on success,
one invalid-free line on failure. -/
theorem del_blk_diag (m : Mgr) (p : Nat) (f : String) (l : Int) (hp : p ≠ 0) :
    (del_blk m p f l).2.2 =
      if (del_blk m p f l).2.1 = true then [] else [Diag.invalidFree p f l] := by
  by_cases hs : (del_step m p).2 = true
  · simp [del_blk, hp, hs]
  · simp [del_blk, hp, hs]

/-! ## C2: trackedRelease -/

/-- C2: `_xfree` is a no-op on a null pointer; otherwise the real `free`
is invoked exactly when the registry removal (`_del_blk`) succeeded, with
the state being whatever `_del_blk` left, and a successful invocation
implies a matching record existed in the registry. -/
theorem xfree_release_iff_removed (m : Mgr) (p : Nat) (f : String) (l : Int) :
    (p = 0 → xfree m p f l = (m, false, [])) ∧
    (p ≠ 0 → (xfree m p f l).2.1 = (del_blk m p f l).2.1 ∧
      (xfree m p f l).1 = (del_blk m p f l).1) ∧
    ((xfree m p f l).2.1 = true → containsPtr m p = true) := by
  by_cases hp : p = 0
  · refine ⟨fun _ => by simp [xfree, hp], fun h => absurd hp h, fun h => ?_⟩
    simp [xfree, hp] at h
  · refine ⟨fun h => absurd h hp, fun _ => ⟨by simp [xfree, hp], by simp [xfree, hp]⟩,
      fun h => ?_⟩
    simp only [xfree, if_neg hp] at h
    exact del_blk_ok_contains m p f l h

/-- C2 witness at a concrete state: address 64 is tracked in `mW2`. -/
theorem xfree_release_iff_removed_witness :
    (xfree mW2 64 "w.c" 0).2.1 = (del_blk mW2 64 "w.c" 0).2.1 ∧
    (xfree mW2 64 "w.c" 0).1 = (del_blk mW2 64 "w.c" 0).1 :=
  (xfree_release_iff_removed mW2 64 "w.c" 0).2.1 (by decide)

/-! ## C3: diagnostics on the moved-reallocation path -/

/-- C3 counterexample: with an empty (but created) registry, a successful
`_xrealloc` from untracked old address 64 to new address 128 emits an
invalid-free diagnostic — the diagnostic is not suppressed on this path. -/
theorem xrealloc_moved_unmatched_emits_diag :
    (xrealloc mEmptyT 64 8 "c3.c" 5 128 true true).2.2 =
      [Diag.invalidFree 64 "c3.c" 5] := by rfl

/-- C3 amended: on the moved path (`old` non-null, result non-null and
different), the removal of the old record emits no diagnostic exactly when
a matching record existed (`_del_blk` succeeded); when none matched, the
invalid-free diagnostic is emitted. -/
theorem xrealloc_moved_diag (m : Mgr) (old n : Nat) (f : String) (l : Int)
    (res : Nat) (blkOk rehashOk : Bool)
    (hold : old ≠ 0) (hres : res ≠ 0) (hne : old ≠ res) :
    ((xrealloc m old n f l res blkOk rehashOk).2.2 = [] ↔
      (del_blk m old f l).2.1 = true) ∧
    ((del_blk m old f l).2.1 = false →
      (xrealloc m old n f l res blkOk rehashOk).2.2 = [Diag.invalidFree old f l]) := by
  have hx : (xrealloc m old n f l res blkOk rehashOk).2.2 = (del_blk m old f l).2.2 := by
    simp [xrealloc, hres, hold, hne]
  rw [hx, del_blk_diag m old f l hold]
  by_cases hs : (del_blk m old f l).2.1 = true
  · simp [hs]
  · simp [hs]

/-- C3 amended, witness: address 64 is tracked in `mW2`, reallocation moved
it to 128. -/
theorem xrealloc_moved_diag_witness :
    ((xrealloc mW2 64 16 "w.c" 10 128 true true).2.2 = [] ↔
      (del_blk mW2 64 "w.c" 10).2.1 = true) ∧
    ((del_blk mW2 64 "w.c" 10).2.1 = false →
      (xrealloc mW2 64 16 "w.c" 10 128 true true).2.2 =
        [Diag.invalidFree 64 "w.c" 10]) :=
  xrealloc_moved_diag mW2 64 16 "w.c" 10 128 true true (by decide) (by decide) (by decide)

/-! ## C8: failed reallocation leaves the registry untouched -/

/-- C8: when the underlying `realloc` returns NULL, `_xrealloc` returns
NULL, the registry state is exactly the input state, and nothing is
printed. -/
theorem xrealloc_fail_frame (m : Mgr) (old n : Nat) (f : String) (l : Int)
    (blkOk rehashOk : Bool) :
    xrealloc m old n f l 0 blkOk rehashOk = (m, 0, []) := by
  simp [xrealloc]

/-! ## C9: trackedAllocate returns the underlying pointer unchanged -/

/-- C9: `_xmalloc` returns exactly the underlying allocator's result for
every tracking outcome; on allocator failure the state is untouched, on
success the state is exactly an `_add_blk` (which drops the record, and
only the record, when its own `malloc` fails). -/
theorem xmalloc_returns_allocator_result (m : Mgr) (n : Nat) (f : String) (l : Int)
    (res : Nat) (blkOk rehashOk : Bool) :
    (xmalloc m n f l res blkOk rehashOk).2 = res ∧
    (res = 0 → (xmalloc m n f l res blkOk rehashOk).1 = m) ∧
    (res ≠ 0 → (xmalloc m n f l res blkOk rehashOk).1 =
      add_blk m res n f l blkOk rehashOk) := by
  by_cases h : res = 0 <;> simp [xmalloc, h]

/-- C9 witness: a successful user allocation at 777 whose bookkeeping
`malloc` fails still leads to the `_add_blk` state (and, per the theorem,
returns 777). -/
theorem xmalloc_returns_allocator_result_witness :
    (xmalloc initMgr 8 "w.c" 31 777 false true).1 =
      add_blk initMgr 777 8 "w.c" 31 false true :=
  (xmalloc_returns_allocator_result initMgr 8 "w.c" 31 777 false true).2.2 (by decide)

/-! ## C10: abandoned growth is a silent no-op -/

/-- C10: `_rehash` leaves the registry exactly as it was when the new
bucket array's allocation fails, and likewise when the requested new
capacity is zero. -/
theorem rehash_fail_frame (m : Mgr) (cap : Nat) (ok : Bool) :
    rehash m cap false = m ∧ rehash m 0 ok = m := by
  constructor
  · unfold rehash
    cases hm : m.table with
    | none => rfl
    | some t => simp
  · unfold rehash
    cases hm : m.table with
    | none => rfl
    | some t => simp

/-! ## C1: in-place resize duplicates the record -/

/-- C1: evaluating the code at the failing input — one tracked allocation
at address 4096, then `_xrealloc` over it returning the same address — the
registry ends with two records for address 4096 (the stale one and a fresh
head insertion), not one updated record: `_add_blk` never updates in
place. -/
theorem xrealloc_inplace_duplicates_record :
    ((allBlks c1_state).filter (fun b => b.ptr == 4096)).length = 2 ∧
    c1_state.alive = 2 ∧
    (allBlks c1_state).map (fun b => (b.ptr, b.sz)) = [(4096, 32), (4096, 16)] := by
  decide

/-! ## C4: reporter output -/

/-- C4 counterexample: with no live records — whether the table was never
created (`initMgr`) or created and empty (`mEmptyT`) — `show_leaks` prints
nothing at all: there is no explicit no-leaks line. -/
theorem show_leaks_empty_prints_nothing :
    (show_leaks initMgr).2 = [] ∧ (show_leaks mEmptyT).2 = [] := by
  constructor
  · rfl
  · rfl

/-- C4 amended: with no live records (absent table or zero live count)
`show_leaks` returns without printing anything and without touching the
state; with live records (live count equal to the number of reachable
records, nonzero) it prints one leak line per record, in table order,
followed by a single total line with the record count and the byte sum,
and leaves the detached-empty state. -/
theorem show_leaks_report (m : Mgr) (t : List (List Blk)) :
    (m.table = none ∨ m.alive = 0 → show_leaks m = (m, [])) ∧
    (m.table = some t → m.alive = t.flatten.length → m.alive ≠ 0 →
      (show_leaks m).2 =
        t.flatten.map (fun b => OutLine.leak b.sz b.ptr b.file b.line) ++
          [OutLine.total t.flatten.length
            (t.flatten.foldl (fun acc b => (acc + b.sz) % SZ) 0)] ∧
      (show_leaks m).1 = initMgr) := by
  constructor
  · intro h
    cases h with
    | inl h0 => simp [show_leaks, h0]
    | inr h0 =>
      unfold show_leaks
      cases hm : m.table with
      | none => rfl
      | some t2 => simp [h0]
  · intro hm ha hne
    have hlen : 0 < t.flatten.length := Nat.pos_of_ne_zero (fun h => hne (by rw [ha, h]))
    unfold show_leaks
    rw [hm]
    simp only [if_neg hne, hlen, if_pos hlen]
    exact ⟨by rw [if_pos trivial], by simp⟩

/-- C4 amended, witness: empty branch at the initial state and live branch
at a one-record state. -/
theorem show_leaks_report_witness :
    show_leaks initMgr = (initMgr, []) ∧
    ((show_leaks mW4).2 =
      (tableOf mW4).flatten.map (fun b => OutLine.leak b.sz b.ptr b.file b.line) ++
        [OutLine.total (tableOf mW4).flatten.length
          ((tableOf mW4).flatten.foldl (fun acc b => (acc + b.sz) % SZ) 0)] ∧
      (show_leaks mW4).1 = initMgr) :=
  ⟨(show_leaks_report initMgr []).1 (Or.inl rfl),
   (show_leaks_report mW4 (tableOf mW4)).2 (by rfl) (by decide) (by decide)⟩

/-! ## C5: zero-allocate overflow guard -/

/-- C5: `_xcalloc` returns NULL without calling the underlying `calloc`
and without touching the registry exactly when `nm * s` overflows
`size_t`; with no overflow it delegates, returning NULL untracked on
allocator failure and otherwise recording the exact (unwrapped) product
`nm * s`. -/
theorem xcalloc_overflow_guard (m : Mgr) (nm s : Nat) (f : String) (l : Int)
    (res : Nat) (blkOk rehashOk : Bool) :
    (SZ ≤ nm * s → xcalloc m nm s f l res blkOk rehashOk = (m, 0, false)) ∧
    (nm * s < SZ →
      (res = 0 → xcalloc m nm s f l res blkOk rehashOk = (m, 0, true)) ∧
      (res ≠ 0 → xcalloc m nm s f l res blkOk rehashOk =
        (add_blk m res (nm * s) f l blkOk rehashOk, res, true))) := by
  have hSZpos : 0 < SZ := by decide
  have hguard : (nm ≠ 0 ∧ s > (SZ - 1) / nm) ↔ SZ ≤ nm * s := by
    constructor
    · rintro ⟨h0, hgt⟩
      have h1 : SZ - 1 < s * nm :=
        (Nat.div_lt_iff_lt_mul (Nat.pos_of_ne_zero h0)).1 hgt
      have h2 : SZ ≤ s * nm := by
        have h3 := Nat.succ_le_of_lt h1
        rwa [Nat.sub_one, Nat.succ_pred_eq_of_pos hSZpos] at h3
      rwa [Nat.mul_comm s nm] at h2
    · intro h
      have h0 : nm ≠ 0 := by
        rintro rfl
        rw [Nat.zero_mul] at h
        exact absurd h (by decide)
      refine ⟨h0, ?_⟩
      have h1 : SZ - 1 < nm * s :=
        Nat.lt_of_lt_of_le (Nat.sub_lt hSZpos (by decide)) h
      rw [Nat.mul_comm nm s] at h1
      exact (Nat.div_lt_iff_lt_mul (Nat.pos_of_ne_zero h0)).2 h1
  constructor
  · intro hov
    rw [xcalloc, if_pos (hguard.2 hov)]
  · intro hlt
    have hng : ¬(nm ≠ 0 ∧ s > (SZ - 1) / nm) := fun hg =>
      (not_le.mpr hlt) (hguard.1 hg)
    constructor
    · intro h0
      rw [xcalloc, if_neg hng, if_pos h0]
    · intro h0
      rw [xcalloc, if_neg hng, if_neg h0, Nat.mod_eq_of_lt hlt]

/-- C5 witness: `2^63 * 4` overflows `size_t`, so the call fails without
delegating; `3 * 5` does not, so the product is recorded exactly. -/
theorem xcalloc_overflow_guard_witness :
    xcalloc initMgr (2 ^ 63) 4 "w.c" 30 0 true true = (initMgr, 0, false) ∧
    xcalloc initMgr 3 5 "w.c" 32 999 true true =
      (add_blk initMgr 999 (3 * 5) "w.c" 32 true true, 999, true) :=
  ⟨(xcalloc_overflow_guard initMgr (2 ^ 63) 4 "w.c" 30 0 true true).1 (by decide),
   ((xcalloc_overflow_guard initMgr 3 5 "w.c" 32 999 true true).2 (by decide)).2 (by decide)⟩

/-! ## C7: growth threshold -/

/-- C7 counterexample: at load factor exactly 3/4 (768 live records,
capacity 1024) an insertion's resize check leaves the table exactly as it
is — the code grows only on strict excess (`alive > capacity * 3 / 4`). -/
theorem maybe_resize_exact_threshold_no_grow :
    4 * m768.alive = 3 * m768.capacity ∧
    m768.table.isSome = true ∧
    maybe_resize m768 true = m768 := by
  refine ⟨by decide, rfl, ?_⟩
  rfl

/-- C7 amended: on a created table whose arithmetic does not wrap
(`3 * capacity < SZ`, `capacity ≠ 0`), with the grow's bucket-array
allocation succeeding, the capacity doubles exactly when the live count
strictly exceeds three quarters of the capacity (`4 * alive >
3 * capacity`), and at or below that threshold the whole state is left
unchanged. -/
theorem maybe_resize_threshold (m : Mgr) (hm : m.table.isSome = true)
    (hcap0 : m.capacity ≠ 0) (hcap : 3 * m.capacity < SZ) :
    (maybe_resize m true).capacity =
      (if 3 * m.capacity < 4 * m.alive then 2 * m.capacity else m.capacity) ∧
    (¬ 3 * m.capacity < 4 * m.alive → maybe_resize m true = m) := by
  obtain ⟨t, ht⟩ := Option.isSome_iff_exists.mp hm
  have hmod3 : (m.capacity * 3) % SZ = 3 * m.capacity := by
    rw [Nat.mul_comm m.capacity 3, Nat.mod_eq_of_lt hcap]
  have h2lt : 2 * m.capacity < SZ :=
    Nat.lt_of_le_of_lt (Nat.mul_le_mul_right m.capacity (by decide)) hcap
  have hmod2 : (m.capacity * 2) % SZ = 2 * m.capacity := by
    rw [Nat.mul_comm m.capacity 2, Nat.mod_eq_of_lt h2lt]
  have hcond : ((m.capacity * 3) % SZ) / 4 < m.alive ↔ 3 * m.capacity < 4 * m.alive := by
    rw [hmod3, Nat.div_lt_iff_lt_mul (by decide : 0 < 4), Nat.mul_comm m.alive 4]
  by_cases hgrow : 3 * m.capacity < 4 * m.alive
  · have hc : m.alive > ((m.capacity * 3) % SZ) / 4 := hcond.2 hgrow
    have hres : maybe_resize m true = rehash m ((m.capacity * 2) % SZ) true := by
      unfold maybe_resize
      rw [ht]
      exact if_pos hc
    have hcap2 : (m.capacity * 2) % SZ ≠ 0 := by
      rw [hmod2]
      exact Nat.mul_ne_zero (by decide) hcap0
    have hrh : (rehash m ((m.capacity * 2) % SZ) true).capacity = 2 * m.capacity := by
      simp [rehash, ht, hcap2, hmod2, hcap0]
    rw [hres, hrh, if_pos hgrow]
    exact ⟨rfl, fun hno => absurd hgrow hno⟩
  · have hc : ¬ m.alive > ((m.capacity * 3) % SZ) / 4 := fun h => hgrow (hcond.1 h)
    have hres : maybe_resize m true = m := by
      unfold maybe_resize
      rw [ht]
      exact if_neg hc
    rw [hres, if_neg hgrow]
    exact ⟨rfl, fun _ => rfl⟩

/-- C7 amended, witness: one live record at capacity 1024 is below the
threshold, so the state is unchanged. -/
theorem maybe_resize_threshold_witness :
    (maybe_resize mW4 true).capacity =
      (if 3 * mW4.capacity < 4 * mW4.alive then 2 * mW4.capacity else mW4.capacity) ∧
    (¬ 3 * mW4.capacity < 4 * mW4.alive → maybe_resize mW4 true = mW4) :=
  maybe_resize_threshold mW4 rfl (by decide) (by decide)

/-! ## C6: rehashing preserves the record multiset -/

/-- Reading back the bucket just written by `List.set`. -/
theorem getD_set_self {α} :
    ∀ (l : List α) (i : Nat) (x d : α), i < l.length → (l.set i x).getD i d = x := by
  intro l
  induction l with
  | nil => intro i x d h; exact absurd h (Nat.not_lt_zero i)
  | cons a rest ih =>
    intro i x d h
    cases i with
    | zero => rfl
    | succ j =>
      rw [List.set_cons_succ, List.getD_cons_succ]
      exact ih j x d (Nat.lt_of_succ_lt_succ h)

/-- Reading a bucket other than the one just written. -/
theorem getD_set_ne {α} :
    ∀ (l : List α) (i j : Nat) (x d : α), i ≠ j → (l.set i x).getD j d = l.getD j d := by
  intro l
  induction l with
  | nil => intro i j x d _; rfl
  | cons a rest ih =>
    intro i j x d hij
    cases i with
    | zero =>
      cases j with
      | zero => exact absurd rfl hij
      | succ k => rfl
    | succ i2 =>
      cases j with
      | zero => rfl
      | succ k =>
        rw [List.set_cons_succ, List.getD_cons_succ, List.getD_cons_succ]
        exact ih i2 k x d (fun he => hij (by rw [he]))

/-- Every bucket of a freshly `calloc`ed table is empty. -/
theorem getD_replicate_nil {α} :
    ∀ (n i : Nat), (List.replicate n ([] : List α)).getD i [] = [] := by
  intro n
  induction n with
  | zero => intro i; rfl
  | succ k ih =>
    intro i
    cases i with
    | zero => rfl
    | succ j =>
      rw [List.replicate_succ, List.getD_cons_succ]
      exact ih j

/-- A fresh table flattens to no records. -/
theorem flatten_replicate_nil {α} :
    ∀ n : Nat, (List.replicate n ([] : List α)).flatten = [] := by
  intro n
  induction n with
  | zero => rfl
  | succ k ih => rw [List.replicate_succ, List.flatten_cons, List.nil_append]; exact ih

/-- Function `_hash_ptr` lands inside the table whenever the capacity is nonzero. -/
theorem hash_ptr_lt (p cap : Nat) (h : cap ≠ 0) : hash_ptr p cap < cap := by
  unfold hash_ptr
  rw [if_neg h]
  exact Nat.lt_of_le_of_lt (Nat.mod_le _ _) (Nat.mod_lt _ (Nat.pos_of_ne_zero h))

/-- Pushing a record onto one bucket permutes the flattened table by one
cons. -/
theorem flatten_set_cons {α} :
    ∀ (l : List (List α)) (i : Nat) (x : α), i < l.length →
      List.Perm ((l.set i (x :: l.getD i [])).flatten) (x :: l.flatten) := by
  intro l
  induction l with
  | nil => intro i x h; exact absurd h (Nat.not_lt_zero i)
  | cons a rest ih =>
    intro i x h
    cases i with
    | zero =>
      rw [List.set_cons_zero, List.getD_cons_zero, List.flatten_cons, List.flatten_cons,
        List.cons_append]
    | succ j =>
      have hj : j < rest.length := Nat.lt_of_succ_lt_succ h
      rw [List.set_cons_succ, List.getD_cons_succ, List.flatten_cons, List.flatten_cons]
      exact (List.Perm.append_left a (ih j x hj)).trans List.perm_middle

/-- The rehash inner loop keeps the table's bucket count. -/
theorem foldl_rehashInsert_length (cap : Nat) :
    ∀ (bs : List Blk) (nt : List (List Blk)),
      (bs.foldl (rehashInsert cap) nt).length = nt.length := by
  intro bs
  induction bs with
  | nil => intro nt; rfl
  | cons b rest ih =>
    intro nt
    rw [List.foldl_cons, ih, rehashInsert, List.length_set]

/-- Rehashing one chain into a table yields a flattening that is a
permutation of the chain prepended to the old contents. -/
theorem foldl_rehashInsert_flatten_perm (cap : Nat) (hcap : cap ≠ 0) :
    ∀ (bs : List Blk) (nt : List (List Blk)), nt.length = cap →
      List.Perm ((bs.foldl (rehashInsert cap) nt).flatten) (bs ++ nt.flatten) := by
  intro bs
  induction bs with
  | nil => intro nt _; exact List.Perm.refl _
  | cons b rest ih =>
    intro nt hlen
    rw [List.foldl_cons]
    have hidx : hash_ptr b.ptr cap < nt.length := by
      rw [hlen]
      exact hash_ptr_lt b.ptr cap hcap
    have hlen2 : (rehashInsert cap nt b).length = cap := by
      rw [rehashInsert, List.length_set, hlen]
    have h2 : List.Perm (rehashInsert cap nt b).flatten (b :: nt.flatten) :=
      flatten_set_cons nt (hash_ptr b.ptr cap) b hidx
    exact ((ih (rehashInsert cap nt b) hlen2).trans
      (List.Perm.append_left rest h2)).trans List.perm_middle

/-- Rehashing a whole bucket array into a table permutes all records. -/
theorem foldl_chains_flatten_perm (cap : Nat) (hcap : cap ≠ 0) :
    ∀ (t nt : List (List Blk)), nt.length = cap →
      List.Perm
        ((t.foldl (fun acc chain => chain.foldl (rehashInsert cap) acc) nt).flatten)
        (t.flatten ++ nt.flatten) := by
  intro t
  induction t with
  | nil => intro nt _; exact List.Perm.refl _
  | cons c rest ih =>
    intro nt hlen
    rw [List.foldl_cons]
    have hlen2 : (c.foldl (rehashInsert cap) nt).length = cap := by
      rw [foldl_rehashInsert_length]
      exact hlen
    have h1 := ih (c.foldl (rehashInsert cap) nt) hlen2
    have h2 := foldl_rehashInsert_flatten_perm cap hcap c nt hlen
    have h3 : List.Perm (rest.flatten ++ (c ++ nt.flatten))
        ((c :: rest).flatten ++ nt.flatten) := by
      rw [List.flatten_cons, List.append_assoc, ← List.append_assoc, ← List.append_assoc]
      exact List.Perm.append_right nt.flatten List.perm_append_comm
    exact (h1.trans (List.Perm.append_left rest.flatten h2)).trans h3

/-- An empty table trivially places every (absent) record correctly. -/
theorem bucketsOk_replicate (cap n : Nat) :
    bucketsOk cap (List.replicate n ([] : List Blk)) := by
  intro i b hb
  rw [getD_replicate_nil] at hb
  exact absurd hb (List.not_mem_nil b)

/-- One rehash push keeps every record in the bucket its address hashes
to. -/
theorem bucketsOk_rehashInsert (cap : Nat) (hcap : cap ≠ 0) (nt : List (List Blk))
    (hlen : nt.length = cap) (b : Blk) (h : bucketsOk cap nt) :
    bucketsOk cap (rehashInsert cap nt b) := by
  intro i x hx
  by_cases hi : hash_ptr b.ptr cap = i
  · subst hi
    rw [rehashInsert,
      getD_set_self _ _ _ _ (by rw [hlen]; exact hash_ptr_lt b.ptr cap hcap)] at hx
    rcases List.mem_cons.mp hx with h1 | h1
    · rw [h1]
    · exact h _ x h1
  · rw [rehashInsert, getD_set_ne _ _ _ _ _ hi] at hx
    exact h i x hx

/-- The rehash inner loop preserves correct bucket placement. -/
theorem bucketsOk_foldl (cap : Nat) (hcap : cap ≠ 0) :
    ∀ (bs : List Blk) (nt : List (List Blk)), nt.length = cap → bucketsOk cap nt →
      bucketsOk cap (bs.foldl (rehashInsert cap) nt) := by
  intro bs
  induction bs with
  | nil => intro nt _ h; exact h
  | cons b rest ih =>
    intro nt hlen h
    rw [List.foldl_cons]
    exact ih _ (by rw [rehashInsert, List.length_set, hlen])
      (bucketsOk_rehashInsert cap hcap nt hlen b h)

/-- The rehash outer loop preserves correct bucket placement. -/
theorem bucketsOk_foldl_chains (cap : Nat) (hcap : cap ≠ 0) :
    ∀ (t nt : List (List Blk)), nt.length = cap → bucketsOk cap nt →
      bucketsOk cap (t.foldl (fun acc chain => chain.foldl (rehashInsert cap) acc) nt) := by
  intro t
  induction t with
  | nil => intro nt _ h; exact h
  | cons c rest ih =>
    intro nt hlen h
    rw [List.foldl_cons]
    exact ih _ (by rw [foldl_rehashInsert_length]; exact hlen)
      (bucketsOk_foldl cap hcap c nt hlen h)

/-- C6: a successful `_rehash` to a nonzero capacity preserves the
multiset of records (the flattened table after is a permutation of the one
before), and afterwards every record sits in the bucket
`_hash_ptr(address, newCapacity)`. -/
theorem rehash_preserves_records (m : Mgr) (hm : m.table.isSome = true)
    (cap : Nat) (hcap : cap ≠ 0) :
    List.Perm (allBlks (rehash m cap true)) (allBlks m) ∧
    bucketsOk cap (tableOf (rehash m cap true)) := by
  obtain ⟨t, ht⟩ := Option.isSome_iff_exists.mp hm
  have hre : rehash m cap true =
      { m with
        table := some (t.foldl (fun acc chain => chain.foldl (rehashInsert cap) acc)
                        (List.replicate cap ([] : List Blk)))
        capacity := cap } := by
    simp [rehash, ht, hcap]
  have hlen : (List.replicate cap ([] : List Blk)).length = cap :=
    List.length_replicate cap []
  constructor
  · rw [hre]
    unfold allBlks
    rw [ht]
    dsimp only
    have h1 := foldl_chains_flatten_perm cap hcap t (List.replicate cap []) hlen
    rw [flatten_replicate_nil, List.append_nil] at h1
    exact h1
  · rw [hre]
    unfold tableOf
    dsimp only
    exact bucketsOk_foldl_chains cap hcap t _ hlen (bucketsOk_replicate cap cap)

/-- C6 witness: growing a two-record table to capacity 2048. -/
theorem rehash_preserves_records_witness :
    List.Perm (allBlks (rehash mW6 2048 true)) (allBlks mW6) ∧
    bucketsOk 2048 (tableOf (rehash mW6 2048 true)) :=
  rehash_preserves_records mW6 rfl 2048 (by decide)
